import Mathlib

/-!
Shallow embedding of the docker-waiter MCP server (`src/index.ts`).

The server exposes eight docker operations over the MCP protocol.  Each
operation validates its argument bag with a zod schema, builds a shell
command by string interpolation, runs it through `exec`, and maps the raw
output to a single text payload.  We embed:

* `JsValue` / `Bag` — the loosely typed JSON argument bag of a tool call;
* the zod schemas `DockerPortArgsSchema` … `DockerDeleteArgsSchema`
  (zod objects are non-strict: unknown keys are stripped, `z.string()`
  accepts any string, `z.number().optional()` accepts any number);
* `ExecEnv` — an oracle for `child_process.exec`: it maps the constructed
  command line to either a captured stdout (exit code 0) or the message of
  the rejection `Error` (non-zero exit);
* a JSON value type with `Json.stringify` (mirroring
  `JSON.stringify(data, null, 2)`) and `Json.parse` (mirroring
  `JSON.parse`; numbers are modelled as integers, which covers the integer
  JSON emitted in practice — fractional/exponent literals are outside the
  model);
* the handlers `dockerPs` … `dockerDelete` and the `CallToolRequestSchema`
  dispatcher `tryBody`/`handle`, including the `try`/`catch` that maps a
  `ZodError` to `InvalidParams` and every other thrown `Error` to
  `InternalError` (note that the `McpError` thrown by the `default` branch
  is itself re-wrapped by this `catch`).

The thrown-error messages of zod and of `JSON.parse` are modelled by fixed
summary strings; no claim depends on their exact text.  `McpError.message`
follows the SDK: `"MCP error " ++ code ++ ": " ++ msg`.
-/

namespace DockerMcp

/-- A JavaScript value as it may appear in a tool-call argument bag. -/
inductive JsValue where
  | str (s : String)
  | num (n : Int)
  | bool (b : Bool)
  | null
  | undef
deriving DecidableEq, Repr

/-- The loosely typed argument bag (`request.params.arguments`). -/
abbrev Bag := List (String × JsValue)

/-- Property access on the bag; a key mapped to `undefined` behaves like an
absent key (as it does for zod object schemas). -/
def getKey (args : Bag) (k : String) : Option JsValue :=
  match args.lookup k with
  | some JsValue.undef => none
  | some v => some v
  | none => none

/-- The MCP SDK error codes used by `src/index.ts`. -/
inductive ErrorCode where
  | MethodNotFound
  | InvalidParams
  | InternalError
deriving DecidableEq, Repr

/-- Numeric value of each JSON-RPC error code (from the MCP SDK). -/
def ErrorCode.codeNum : ErrorCode → Int
  | ErrorCode.MethodNotFound => -32601
  | ErrorCode.InvalidParams => -32602
  | ErrorCode.InternalError => -32603

/-- A structured `McpError` as surfaced to the caller. -/
structure McpError where
  code : ErrorCode
  message : String
deriving DecidableEq, Repr

/-- The exceptions that can be thrown inside the dispatcher's `try` block:
a `ZodError` from schema validation, an `McpError` (thrown by the `default`
branch for unknown tools), the rejection of `execAsync` (non-zero exit),
and the `SyntaxError` of `JSON.parse`. -/
inductive Thrown where
  | zodError (msg : String)
  | mcpError (code : ErrorCode) (msg : String)
  | execError (msg : String)
  | syntaxError (msg : String)
deriving DecidableEq, Repr

/-- `error.message` of a thrown exception.  `McpError`'s constructor sets
`super("MCP error " + code + ": " + message)`. -/
def Thrown.errText : Thrown → String
  | Thrown.zodError m => m
  | Thrown.mcpError c m => "MCP error " ++ toString c.codeNum ++ ": " ++ m
  | Thrown.execError m => m
  | Thrown.syntaxError m => m

/-- The `catch` block of the dispatcher: a `ZodError` becomes
`InvalidParams`, any other thrown `Error` becomes `InternalError`. -/
def catchWrap (name : String) : Thrown → McpError
  | Thrown.zodError m =>
      ⟨ErrorCode.InvalidParams, "Invalid arguments for " ++ name ++ ": " ++ m⟩
  | e =>
      ⟨ErrorCode.InternalError, "Error executing " ++ name ++ ": " ++ e.errText⟩

/-- zod `z.string()` on a required object field. -/
def requiredString (args : Bag) (k : String) : Except Thrown String :=
  match getKey args k with
  | some (JsValue.str s) => Except.ok s
  | some _ => Except.error (Thrown.zodError "Expected string")
  | none => Except.error (Thrown.zodError "Required")

/-- zod `z.number().optional()` on an object field. -/
def optionalNumber (args : Bag) (k : String) : Except Thrown (Option Int) :=
  match getKey args k with
  | none => Except.ok none
  | some (JsValue.num n) => Except.ok (some n)
  | some _ => Except.error (Thrown.zodError "Expected number")

/-- zod `z.boolean().optional()` on an object field. -/
def optionalBoolean (args : Bag) (k : String) : Except Thrown (Option Bool) :=
  match getKey args k with
  | none => Except.ok none
  | some (JsValue.bool b) => Except.ok (some b)
  | some _ => Except.error (Thrown.zodError "Expected boolean")

/-- `DockerPortArgsSchema.parse`: `{ container: z.string() }`. -/
def DockerPortArgsSchema.parse (args : Bag) : Except Thrown String :=
  requiredString args "container"

/-- `DockerLogsArgsSchema.parse`:
`{ container: z.string(), tail: z.number().optional() }`. -/
def DockerLogsArgsSchema.parse (args : Bag) : Except Thrown (String × Option Int) := do
  let container ← requiredString args "container"
  let tail ← optionalNumber args "tail"
  Except.ok (container, tail)

/-- `DockerInspectArgsSchema.parse`: `{ container: z.string() }`. -/
def DockerInspectArgsSchema.parse (args : Bag) : Except Thrown String :=
  requiredString args "container"

/-- `DockerStatsArgsSchema.parse`: `{ no_stream: z.boolean().optional() }`. -/
def DockerStatsArgsSchema.parse (args : Bag) : Except Thrown (Option Bool) :=
  optionalBoolean args "no_stream"

/-- `DockerDeleteArgsSchema.parse`:
`{ container: z.string(), force: z.boolean().optional() }`. -/
def DockerDeleteArgsSchema.parse (args : Bag) : Except Thrown (String × Option Bool) := do
  let container ← requiredString args "container"
  let force ← optionalBoolean args "force"
  Except.ok (container, force)

/-- Outcome of one `exec` call: captured stdout on exit code 0, or the
message of the rejection `Error` on a non-zero exit. -/
inductive ExecOutcome where
  | ok (stdout : String)
  | err (errorMessage : String)
deriving DecidableEq, Repr

/-- The external container runtime, as an oracle from the constructed
command line to its outcome. -/
abbrev ExecEnv := String → ExecOutcome

/-- `await execAsync(cmd)`: a non-zero exit rejects with an `Error`. -/
def execAsync (env : ExecEnv) (cmd : String) : Except Thrown String :=
  match env cmd with
  | ExecOutcome.ok stdout => Except.ok stdout
  | ExecOutcome.err m => Except.error (Thrown.execError m)

end DockerMcp

namespace DockerMcp

/-! ## JSON values, `JSON.stringify(·, null, 2)` and `JSON.parse`

Used by the `docker_inspect` handler.  Numbers are modelled as integers. -/

/-- A JSON value (numbers restricted to integers). -/
inductive Json where
  | null
  | bool (b : Bool)
  | num (n : Int)
  | str (s : String)
  | arr (elems : List Json)
  | obj (fields : List (String × Json))

/-- Hexadecimal digit characters, lowercase (as `JSON.stringify` emits). -/
def hexDigitChar (n : Nat) : Char :=
  match n with
  | 0 => '0' | 1 => '1' | 2 => '2' | 3 => '3' | 4 => '4'
  | 5 => '5' | 6 => '6' | 7 => '7' | 8 => '8' | 9 => '9'
  | 10 => 'a' | 11 => 'b' | 12 => 'c' | 13 => 'd' | 14 => 'e'
  | _ => 'f'

/-- Decimal digit test on a character. -/
def isDigitChar (c : Char) : Bool :=
  decide (48 ≤ c.toNat) && decide (c.toNat ≤ 57)

/-- Value of a decimal digit character. -/
def digitVal (c : Char) : Nat := c.toNat - 48

/-- The JSON string escaping performed by `JSON.stringify`. -/
def escapeChar (c : Char) : List Char :=
  if c = '"' then ['\\', '"']
  else if c = '\\' then ['\\', '\\']
  else if c = '\n' then ['\\', 'n']
  else if c = '\t' then ['\\', 't']
  else if c = '\r' then ['\\', 'r']
  else if c = '\x08' then ['\\', 'b']
  else if c = '\x0c' then ['\\', 'f']
  else if c.toNat < 32 then
    ['\\', 'u', '0', '0', hexDigitChar (c.toNat / 16), hexDigitChar (c.toNat % 16)]
  else [c]

/-- Escape every character of a string body. -/
def escapeList : List Char → List Char
  | [] => []
  | c :: cs => escapeChar c ++ escapeList cs

/-- A quoted, escaped JSON string literal. -/
def quoteChars (s : String) : List Char :=
  '"' :: (escapeList s.data ++ ['"'])

/-- Decimal digits of a natural number, most significant first (fuelled;
any fuel above the value itself is enough). -/
def natToDigitsAux : Nat → Nat → List Char
  | 0, _ => []
  | fuel + 1, n =>
    if n < 10 then [hexDigitChar n]
    else natToDigitsAux fuel (n / 10) ++ [hexDigitChar (n % 10)]

/-- Decimal digits of a natural number, most significant first. -/
def natToDigits (n : Nat) : List Char := natToDigitsAux (n + 1) n

/-- Decimal representation of an integer (as JavaScript `String(n)`). -/
def intToChars (n : Int) : List Char :=
  if n < 0 then '-' :: natToDigits n.natAbs else natToDigits n.toNat

/-- Two spaces of indentation per level (`JSON.stringify(·, null, 2)`). -/
def indentChars (lvl : Nat) : List Char := List.replicate (2 * lvl) ' '

mutual

/-- `JSON.stringify(v, null, 2)` at nesting level `lvl`, as characters. -/
def stringifyChars : Nat → Json → List Char
  | _, Json.null => ['n', 'u', 'l', 'l']
  | _, Json.bool true => ['t', 'r', 'u', 'e']
  | _, Json.bool false => ['f', 'a', 'l', 's', 'e']
  | _, Json.num n => intToChars n
  | _, Json.str s => quoteChars s
  | _, Json.arr [] => ['[', ']']
  | lvl, Json.arr (x :: xs) =>
      '[' :: '\n' ::
        (itemsChars (lvl + 1) (x :: xs) ++ '\n' :: (indentChars lvl ++ [']']))
  | _, Json.obj [] => ['\x7b', '\x7d']
  | lvl, Json.obj (f :: fs) =>
      '\x7b' :: '\n' ::
        (fieldsChars (lvl + 1) (f :: fs) ++ '\n' :: (indentChars lvl ++ ['\x7d']))

/-- Array elements, one per line, comma-separated. -/
def itemsChars : Nat → List Json → List Char
  | _, [] => []
  | lvl, [x] => indentChars lvl ++ stringifyChars lvl x
  | lvl, x :: y :: xs =>
      indentChars lvl ++ stringifyChars lvl x ++
        (',' :: '\n' :: itemsChars lvl (y :: xs))

/-- Object fields, one per line, `"key": value`, comma-separated. -/
def fieldsChars : Nat → List (String × Json) → List Char
  | _, [] => []
  | lvl, [(k, v)] =>
      indentChars lvl ++ quoteChars k ++ (':' :: ' ' :: stringifyChars lvl v)
  | lvl, (k, v) :: g :: fs =>
      indentChars lvl ++ quoteChars k ++ (':' :: ' ' :: stringifyChars lvl v) ++
        (',' :: '\n' :: fieldsChars lvl (g :: fs))

end

/-- `JSON.stringify(v, null, 2)`. -/
def Json.stringify (j : Json) : String := String.mk (stringifyChars 0 j)

/-- JSON whitespace (as accepted between tokens by `JSON.parse`). -/
def isJsonWs (c : Char) : Bool :=
  c = ' ' || c = '\t' || c = '\n' || c = '\r'

/-- Drop leading JSON whitespace. -/
def skipWs : List Char → List Char
  | [] => []
  | c :: cs => if isJsonWs c then skipWs cs else c :: cs

/-- Strip an expected literal prefix. -/
def stripPre : List Char → List Char → Option (List Char)
  | [], cs => some cs
  | p :: ps, c :: cs => if c = p then stripPre ps cs else none
  | _ :: _, [] => none

/-- Cons a character onto the pending string-body parse. -/
def mapConsChar (c : Char) : Option (List Char × List Char) → Option (List Char × List Char)
  | some (l, r) => some (c :: l, r)
  | none => none

/-- Value of a hexadecimal digit character. -/
def hexVal (c : Char) : Option Nat :=
  if isDigitChar c then some (c.toNat - 48)
  else if 97 ≤ c.toNat ∧ c.toNat ≤ 102 then some (c.toNat - 87)
  else if 65 ≤ c.toNat ∧ c.toNat ≤ 70 then some (c.toNat - 55)
  else none

/-- Single-character escape sequences accepted by `JSON.parse`. -/
def unescapeChar (e : Char) : Option Char :=
  if e = '"' then some '"'
  else if e = '\\' then some '\\'
  else if e = '/' then some '/'
  else if e = 'n' then some '\n'
  else if e = 't' then some '\t'
  else if e = 'r' then some '\r'
  else if e = 'b' then some '\x08'
  else if e = 'f' then some '\x0c'
  else none

/-- Parse the body of a JSON string literal (after the opening quote),
returning the unescaped characters and the remainder after the closing
quote.  Raw control characters are rejected, as by `JSON.parse`.  Fuelled;
any fuel above the number of (escaped) source characters is enough. -/
def parseStringBody : Nat → List Char → Option (List Char × List Char)
  | 0, _ => none
  | _ + 1, [] => none
  | fuel + 1, c :: cs =>
    if c = '"' then some ([], cs)
    else if c = '\\' then
      match cs with
      | 'u' :: h1 :: h2 :: h3 :: h4 :: cs2 =>
        (match hexVal h1, hexVal h2, hexVal h3, hexVal h4 with
         | some a, some b, some c2, some d =>
             mapConsChar (Char.ofNat (((a * 16 + b) * 16 + c2) * 16 + d))
               (parseStringBody fuel cs2)
         | _, _, _, _ => none)
      | e :: cs2 =>
        (match unescapeChar e with
         | some u => mapConsChar u (parseStringBody fuel cs2)
         | none => none)
      | [] => none
    else if c.toNat < 32 then none
    else mapConsChar c (parseStringBody fuel cs)

/-- Split leading decimal digits off the input. -/
def takeDigits : List Char → List Char × List Char
  | [] => ([], [])
  | c :: cs =>
    if isDigitChar c then
      (c :: (takeDigits cs).1, (takeDigits cs).2)
    else ([], c :: cs)

/-- Value of a digit run, most significant first. -/
def digitsToNat (ds : List Char) : Nat :=
  ds.foldl (fun a c => a * 10 + digitVal c) 0

/-- Parse an (integer) JSON number. -/
def parseNumber : List Char → Option (Json × List Char)
  | [] => none
  | c :: cs =>
    if c = '-' then
      match takeDigits cs with
      | ([], _) => none
      | (ds, rest) => some (Json.num (-(digitsToNat ds : Int)), rest)
    else
      match takeDigits (c :: cs) with
      | ([], _) => none
      | (ds, rest) => some (Json.num ((digitsToNat ds : Int)), rest)

mutual

/-- Recursive-descent JSON value parser (fuelled). -/
def parseValue : Nat → List Char → Option (Json × List Char)
  | 0, _ => none
  | fuel + 1, cs =>
    match skipWs cs with
    | [] => none
    | c :: cs1 =>
      if c = 'n' then
        match stripPre ['u', 'l', 'l'] cs1 with
        | some rest => some (Json.null, rest)
        | none => none
      else if c = 't' then
        match stripPre ['r', 'u', 'e'] cs1 with
        | some rest => some (Json.bool true, rest)
        | none => none
      else if c = 'f' then
        match stripPre ['a', 'l', 's', 'e'] cs1 with
        | some rest => some (Json.bool false, rest)
        | none => none
      else if c = '"' then
        match parseStringBody (cs1.length + 1) cs1 with
        | some (l, rest) => some (Json.str (String.mk l), rest)
        | none => none
      else if c = '[' then
        match skipWs cs1 with
        | ']' :: rest => some (Json.arr [], rest)
        | _ =>
          match parseItems fuel cs1 with
          | some (xs, rest) => some (Json.arr xs, rest)
          | none => none
      else if c = '\x7b' then
        match skipWs cs1 with
        | '\x7d' :: rest => some (Json.obj [], rest)
        | _ =>
          match parseFields fuel cs1 with
          | some (fs, rest) => some (Json.obj fs, rest)
          | none => none
      else parseNumber (c :: cs1)

/-- Parse the elements of a non-empty array, up to and including `]`. -/
def parseItems : Nat → List Char → Option (List Json × List Char)
  | 0, _ => none
  | fuel + 1, cs =>
    match parseValue fuel cs with
    | some (v, r) =>
      (match skipWs r with
       | ',' :: r2 =>
         (match parseItems fuel r2 with
          | some (xs, r3) => some (v :: xs, r3)
          | none => none)
       | ']' :: r2 => some ([v], r2)
       | _ => none)
    | none => none

/-- Parse the fields of a non-empty object, up to and including the
closing brace. -/
def parseFields : Nat → List Char → Option (List (String × Json) × List Char)
  | 0, _ => none
  | fuel + 1, cs =>
    match skipWs cs with
    | '"' :: cs1 =>
      (match parseStringBody (cs1.length + 1) cs1 with
       | some (k, cs2) =>
         (match skipWs cs2 with
          | ':' :: cs3 =>
            (match parseValue fuel cs3 with
             | some (v, cs4) =>
               (match skipWs cs4 with
                | ',' :: cs5 =>
                  (match parseFields fuel cs5 with
                   | some (fs, cs6) => some ((String.mk k, v) :: fs, cs6)
                   | none => none)
                | '\x7d' :: cs5 => some ([(String.mk k, v)], cs5)
                | _ => none)
             | none => none)
          | _ => none)
       | none => none)
    | _ => none

end

/-- `JSON.parse`: a single JSON value, surrounded by optional whitespace,
consuming the whole input. -/
def Json.parse (s : String) : Option Json :=
  match parseValue (s.data.length + 1) s.data with
  | some (j, rest) =>
    (match skipWs rest with
     | [] => some j
     | _ => none)
  | none => none

/-- What may follow a serialized value so that number parsing stops in the
right place: nothing, or a non-digit. -/
def restOk : List Char → Prop
  | [] => True
  | c :: _ => isDigitChar c = false

mutual

/-- Recursion weight of a JSON value; a fuel of at least this weight lets
the parser traverse the whole value. -/
def jweight : Json → Nat
  | Json.null => 1
  | Json.bool _ => 1
  | Json.num _ => 1
  | Json.str _ => 1
  | Json.arr xs => 1 + jlweight xs
  | Json.obj fs => 1 + jfweight fs

/-- Recursion weight of an array-element list. -/
def jlweight : List Json → Nat
  | [] => 0
  | x :: xs => 1 + jweight x + jlweight xs

/-- Recursion weight of an object-field list. -/
def jfweight : List (String × Json) → Nat
  | [] => 0
  | (_, v) :: fs => 1 + jweight v + jfweight fs

end

end DockerMcp

namespace DockerMcp

/-! ## Handlers and dispatcher -/

/-- `dockerPs`: list running containers. -/
def dockerPs (env : ExecEnv) : Except Thrown String := do
  let stdout ← execAsync env "docker ps --format \"table \x7b\x7b.ID\x7d\x7d\t\x7b\x7b.Names\x7d\x7d\t\x7b\x7b.Image\x7d\x7d\t\x7b\x7b.Status\x7d\x7d\t\x7b\x7b.Ports\x7d\x7d\""
  Except.ok stdout

/-- `dockerPsAll`: list all containers. -/
def dockerPsAll (env : ExecEnv) : Except Thrown String := do
  let stdout ← execAsync env "docker ps -a --format \"table \x7b\x7b.ID\x7d\x7d\t\x7b\x7b.Names\x7d\x7d\t\x7b\x7b.Image\x7d\x7d\t\x7b\x7b.Status\x7d\x7d\t\x7b\x7b.Ports\x7d\x7d\""
  Except.ok stdout

/-- `dockerPort`: `docker port ${container}`; empty stdout is replaced by
the literal text (via JavaScript `stdout || 'No ports mapped'`). -/
def dockerPort (env : ExecEnv) (container : String) : Except Thrown String := do
  let stdout ← execAsync env ("docker port " ++ container)
  Except.ok (if stdout = "" then "No ports mapped" else stdout)

/-- `dockerLogs`: `docker logs --tail ${tail} ${container}`. -/
def dockerLogs (env : ExecEnv) (container : String) (tail : Int) : Except Thrown String := do
  let stdout ← execAsync env ("docker logs --tail " ++ toString tail ++ " " ++ container)
  Except.ok stdout

/-- `dockerInspect`: `docker inspect ${container}`, then
`JSON.parse`/`JSON.stringify(data, null, 2)`; a parse failure throws a
`SyntaxError`. -/
def dockerInspect (env : ExecEnv) (container : String) : Except Thrown String := do
  let stdout ← execAsync env ("docker inspect " ++ container)
  match Json.parse stdout with
  | some data => Except.ok (Json.stringify data)
  | none => Except.error (Thrown.syntaxError "Unexpected token in JSON")

/-- `dockerStats`: `docker stats --no-stream` or `docker stats`. -/
def dockerStats (env : ExecEnv) (noStream : Bool) : Except Thrown String := do
  let stdout ← execAsync env (if noStream then "docker stats --no-stream" else "docker stats")
  Except.ok stdout

/-- `dockerImages`: list images. -/
def dockerImages (env : ExecEnv) : Except Thrown String := do
  let stdout ← execAsync env "docker images --format \"table \x7b\x7b.Repository\x7d\x7d\t\x7b\x7b.Tag\x7d\x7d\t\x7b\x7b.ID\x7d\x7d\t\x7b\x7b.CreatedAt\x7d\x7d\t\x7b\x7b.Size\x7d\x7d\""
  Except.ok stdout

/-- `dockerDelete`: `docker rm [-f] ${container}`; on success the payload
is a confirmation message naming the container. -/
def dockerDelete (env : ExecEnv) (container : String) (force : Bool) : Except Thrown String := do
  let _ ← execAsync env (if force then "docker rm -f " ++ container else "docker rm " ++ container)
  Except.ok ("Container " ++ container ++ " deleted successfully")

/-- JavaScript `v || d` on an optional number (`0` is falsy). -/
def jsOrNum (v : Option Int) (d : Int) : Int :=
  match v with
  | none => d
  | some n => if n = 0 then d else n

/-- JavaScript `v || d` on an optional boolean. -/
def jsOrBool (v : Option Bool) (d : Bool) : Bool :=
  match v with
  | none => d
  | some b => b || d

/-- JavaScript `v !== false` on an optional boolean. -/
def neqFalse (v : Option Bool) : Bool :=
  match v with
  | some false => false
  | _ => true

/-- The body of the `CallToolRequestSchema` handler's `try` block: the
`switch` over the tool name. -/
def tryBody (env : ExecEnv) (name : String) (args : Bag) : Except Thrown String :=
  if name = "docker_ps" then dockerPs env
  else if name = "docker_ps_all" then dockerPsAll env
  else if name = "docker_port" then do
    let container ← DockerPortArgsSchema.parse args
    dockerPort env container
  else if name = "docker_logs" then do
    let v ← DockerLogsArgsSchema.parse args
    dockerLogs env v.1 (jsOrNum v.2 100)
  else if name = "docker_inspect" then do
    let container ← DockerInspectArgsSchema.parse args
    dockerInspect env container
  else if name = "docker_stats" then do
    let v ← DockerStatsArgsSchema.parse args
    dockerStats env (neqFalse v)
  else if name = "docker_images" then dockerImages env
  else if name = "docker_delete" then do
    let v ← DockerDeleteArgsSchema.parse args
    dockerDelete env v.1 (jsOrBool v.2 false)
  else Except.error (Thrown.mcpError ErrorCode.MethodNotFound ("Unknown tool: " ++ name))

/-- The complete dispatch of one tool call: the `try` block wrapped by the
`catch` block. -/
def handle (env : ExecEnv) (name : String) (args : Bag) : Except McpError String :=
  (tryBody env name args).mapError (catchWrap name)

/-! ## Tool registry (`ListToolsRequestSchema` handler) -/

/-- One property of a tool's `inputSchema`. -/
structure PropSpec where
  pname : String
  ptype : String
  pdescription : String
  defaultVal : Option JsValue := none
deriving DecidableEq, Repr

/-- One advertised tool descriptor. -/
structure ToolDescriptor where
  tname : String
  tdescription : String
  properties : List PropSpec
  required : List String
deriving DecidableEq, Repr

/-- The static `tools` list returned by the `ListToolsRequestSchema`
handler. -/
def listOperations : List ToolDescriptor :=
  [ { tname := "docker_ps",
      tdescription := "List running Docker containers",
      properties := [],
      required := [] },
    { tname := "docker_ps_all",
      tdescription := "List all Docker containers (running and stopped)",
      properties := [],
      required := [] },
    { tname := "docker_port",
      tdescription := "Show mapped ports for a container",
      properties := [
        { pname := "container", ptype := "string",
          pdescription := "Container name or ID" }],
      required := ["container"] },
    { tname := "docker_logs",
      tdescription := "Get logs from a container",
      properties := [
        { pname := "container", ptype := "string",
          pdescription := "Container name or ID" },
        { pname := "tail", ptype := "number",
          pdescription := "Number of lines from the end (default: 100)",
          defaultVal := some (JsValue.num 100) }],
      required := ["container"] },
    { tname := "docker_inspect",
      tdescription := "Show detailed information about a container",
      properties := [
        { pname := "container", ptype := "string",
          pdescription := "Container name or ID" }],
      required := ["container"] },
    { tname := "docker_stats",
      tdescription := "Show container resource usage statistics",
      properties := [
        { pname := "no_stream", ptype := "boolean",
          pdescription := "Do not stream continuously (default: true)",
          defaultVal := some (JsValue.bool true) }],
      required := [] },
    { tname := "docker_images",
      tdescription := "List available Docker images",
      properties := [],
      required := [] },
    { tname := "docker_delete",
      tdescription := "Delete a Docker container",
      properties := [
        { pname := "container", ptype := "string",
          pdescription := "Container name or ID" },
        { pname := "force", ptype := "boolean",
          pdescription := "Force remove running container (default: false)",
          defaultVal := some (JsValue.bool false) }],
      required := ["container"] } ]

/-- The schema-relevant shape of a descriptor: name, and per property its
name, type, whether it is required, and its advertised default. -/
def toolSummary (t : ToolDescriptor) : String × List (String × String × Bool × Option JsValue) :=
  (t.tname, t.properties.map fun p => (p.pname, p.ptype, t.required.contains p.pname, p.defaultVal))

/-- Modelled from the spec: the section-3 catalog of operations, as
(name, [(parameter, type, required, default)]).  `docker_ps`,
`docker_ps_all`, `docker_images` take no parameters; `docker_port` and
`docker_inspect` take a required string `container`; `docker_logs` adds an
optional numeric `tail` defaulting to 100; `docker_stats` takes an
optional boolean `no_stream` defaulting to true; `docker_delete` takes a
required string `container` and an optional boolean `force` defaulting to
false. -/
def specCatalog : List (String × List (String × String × Bool × Option JsValue)) :=
  [ ("docker_ps", []),
    ("docker_ps_all", []),
    ("docker_port", [("container", "string", true, none)]),
    ("docker_logs", [("container", "string", true, none),
                     ("tail", "number", false, some (JsValue.num 100))]),
    ("docker_inspect", [("container", "string", true, none)]),
    ("docker_stats", [("no_stream", "boolean", false, some (JsValue.bool true))]),
    ("docker_images", []),
    ("docker_delete", [("container", "string", true, none),
                       ("force", "boolean", false, some (JsValue.bool false))]) ]

/-- The argument-bag keys each operation's zod schema recognizes. -/
def recognizedKeys (name : String) : List String :=
  if name = "docker_port" then ["container"]
  else if name = "docker_logs" then ["container", "tail"]
  else if name = "docker_inspect" then ["container"]
  else if name = "docker_stats" then ["no_stream"]
  else if name = "docker_delete" then ["container", "force"]
  else []

/-- An oracle that succeeds and echoes the command line it was given. -/
def echoEnv : ExecEnv := fun cmd => ExecOutcome.ok cmd

/-- An oracle that fails and echoes the command line it was given. -/
def failEnv : ExecEnv := fun cmd => ExecOutcome.err cmd

end DockerMcp
namespace DockerMcp

/-! ## Dispatcher lemmas -/

/-- Monad-bind on a failed validation propagates the error. -/
theorem error_bind {α β : Type} (e : Thrown) (f : α → Except Thrown β) :
    (Except.error e >>= f : Except Thrown β) = Except.error e := rfl

/-- Monad-bind on a successful validation applies the continuation. -/
theorem ok_bind {α β : Type} (a : α) (f : α → Except Thrown β) :
    (Except.ok a >>= f : Except Thrown β) = f a := rfl

/-- If the bag holds no string under `k`, zod's required-string field
fails with a `ZodError`. -/
theorem requiredString_fails (args : Bag) (k : String)
    (h : ∀ s, getKey args k ≠ some (JsValue.str s)) :
    ∃ m, requiredString args k = Except.error (Thrown.zodError m) := by
  unfold requiredString
  cases hk : getKey args k with
  | none => exact ⟨"Required", rfl⟩
  | some v =>
    cases v with
    | str s => exact absurd hk (h s)
    | num n => exact ⟨"Expected string", rfl⟩
    | bool b => exact ⟨"Expected string", rfl⟩
    | null => exact ⟨"Expected string", rfl⟩
    | undef => exact ⟨"Expected string", rfl⟩

/-- Association-list lookup ignores an entry under a different key. -/
theorem lookup_middle (l1 l2 : Bag) (k k2 : String) (v : JsValue) (h : k2 ≠ k) :
    (l1 ++ (k, v) :: l2).lookup k2 = (l1 ++ l2).lookup k2 := by
  induction l1 with
  | nil =>
    simp only [List.nil_append, List.lookup]
    rw [show (k2 == k) = false from beq_eq_false_iff_ne.mpr h]
  | cons p t ih =>
    obtain ⟨a, b⟩ := p
    simp only [List.cons_append, List.lookup]
    cases k2 == a with
    | true => rfl
    | false => exact ih

/-- Bag access ignores an entry under a different key. -/
theorem getKey_middle (l1 l2 : Bag) (k k2 : String) (v : JsValue) (h : k2 ≠ k) :
    getKey (l1 ++ (k, v) :: l2) k2 = getKey (l1 ++ l2) k2 := by
  unfold getKey
  rw [lookup_middle l1 l2 k k2 v h]

/-- zod required-string validation ignores an entry under a different key. -/
theorem requiredString_middle (l1 l2 : Bag) (k k2 : String) (v : JsValue) (h : k2 ≠ k) :
    requiredString (l1 ++ (k, v) :: l2) k2 = requiredString (l1 ++ l2) k2 := by
  unfold requiredString
  rw [getKey_middle l1 l2 k k2 v h]

/-- zod optional-number validation ignores an entry under a different key. -/
theorem optionalNumber_middle (l1 l2 : Bag) (k k2 : String) (v : JsValue) (h : k2 ≠ k) :
    optionalNumber (l1 ++ (k, v) :: l2) k2 = optionalNumber (l1 ++ l2) k2 := by
  unfold optionalNumber
  rw [getKey_middle l1 l2 k k2 v h]

/-- zod optional-boolean validation ignores an entry under a different key. -/
theorem optionalBoolean_middle (l1 l2 : Bag) (k k2 : String) (v : JsValue) (h : k2 ≠ k) :
    optionalBoolean (l1 ++ (k, v) :: l2) k2 = optionalBoolean (l1 ++ l2) k2 := by
  unfold optionalBoolean
  rw [getKey_middle l1 l2 k k2 v h]

end DockerMcp
namespace DockerMcp

/-- C1: the claim requires that a `container` value holding shell
metacharacters is rejected as `InvalidParameters` or neutralized.  The
code does neither: `container = "; rm -rf /"` passes zod validation
(`z.string()`), and the dispatcher interpolates it verbatim into the
command line handed to `exec`, so `docker_port` runs the command line
`docker port ; rm -rf /` and `docker_delete` runs `docker rm ; rm -rf /`
(the oracles echo the command line they were asked to run). -/
theorem injection_metachar_interpolated :
    handle echoEnv "docker_port" [("container", JsValue.str "; rm -rf /")]
      = Except.ok "docker port ; rm -rf /"
    ∧ handle failEnv "docker_delete" [("container", JsValue.str "; rm -rf /")]
      = Except.error ⟨ErrorCode.InternalError,
          "Error executing docker_delete: docker rm ; rm -rf /"⟩ :=
  ⟨rfl, rfl⟩

/-- C2: dispatching an unregistered operation name does NOT surface the
`MethodNotFound` (UnknownOperation) category.  The `default` branch of the
`switch` does throw `McpError(MethodNotFound)`, but that throw happens
inside the `try` block and the `catch` re-wraps every non-`ZodError` as
`InternalError`, so the caller sees the `InternalError` (ExecutionFailure)
category instead. -/
theorem unknown_tool_rewrapped_internal_error :
    tryBody echoEnv "docker_foo" []
      = Except.error (Thrown.mcpError ErrorCode.MethodNotFound "Unknown tool: docker_foo")
    ∧ handle echoEnv "docker_foo" []
      = Except.error ⟨ErrorCode.InternalError,
          "Error executing docker_foo: MCP error -32601: Unknown tool: docker_foo"⟩ :=
  ⟨rfl, rfl⟩

/-- C3 counterexample: a `container` that is empty (or whitespace-only) is
NOT rejected: `z.string()` accepts it, and the external process is started
with the raw value interpolated (the echoing oracle shows the command
line that was executed). -/
theorem empty_container_accepted :
    handle echoEnv "docker_port" [("container", JsValue.str "")]
      = Except.ok "docker port "
    ∧ handle echoEnv "docker_port" [("container", JsValue.str "   ")]
      = Except.ok "docker port    " :=
  ⟨rfl, rfl⟩

/-- C3 amended: for the four operations with a required `container`
parameter, validation fails with `InvalidParams` exactly when `container`
is absent or not a string; the external process is never started in that
case (the result is the same for every oracle).  A present string —
including the empty or whitespace-only string — is accepted. -/
theorem container_validation_amended (env : ExecEnv) (name : String) (args : Bag)
    (hname : name = "docker_port" ∨ name = "docker_logs" ∨
             name = "docker_inspect" ∨ name = "docker_delete")
    (hcont : ∀ s, getKey args "container" ≠ some (JsValue.str s)) :
    ∃ m, handle env name args = Except.error ⟨ErrorCode.InvalidParams, m⟩ := by
  obtain ⟨m, hm⟩ := requiredString_fails args "container" hcont
  rcases hname with rfl | rfl | rfl | rfl
  · exact ⟨"Invalid arguments for docker_port: " ++ m,
      by simp [handle, tryBody, DockerPortArgsSchema.parse, hm,
               catchWrap, Except.mapError, error_bind]⟩
  · exact ⟨"Invalid arguments for docker_logs: " ++ m,
      by simp [handle, tryBody, DockerLogsArgsSchema.parse, hm,
               catchWrap, Except.mapError, error_bind]⟩
  · exact ⟨"Invalid arguments for docker_inspect: " ++ m,
      by simp [handle, tryBody, DockerInspectArgsSchema.parse, hm,
               catchWrap, Except.mapError, error_bind]⟩
  · exact ⟨"Invalid arguments for docker_delete: " ++ m,
      by simp [handle, tryBody, DockerDeleteArgsSchema.parse, hm,
               catchWrap, Except.mapError, error_bind]⟩

/-- C3 amended, witness: dispatching `docker_port` with an empty bag is
rejected as `InvalidParams`. -/
theorem container_validation_amended_witness :
    ∃ m, handle echoEnv "docker_port" [] = Except.error ⟨ErrorCode.InvalidParams, m⟩ :=
  container_validation_amended echoEnv "docker_port" [] (Or.inl rfl)
    (fun s h => by simp [getKey, List.lookup] at h)

/-- C4 counterexample: `tail = -5` is not rejected — `z.number()` has no
non-negativity or integrality refinement — and the external command
carries the negative value. -/
theorem negative_tail_accepted :
    handle echoEnv "docker_logs" [("container", JsValue.str "c1"), ("tail", JsValue.num (-5))]
      = Except.ok "docker logs --tail -5 c1" :=
  rfl

/-- C4 amended: when `tail` is absent the dispatch behaves identically to
supplying `tail = 100` and invokes exactly `docker logs --tail 100
<container>`; a present `tail` must be a number (a non-number,
non-undefined value fails with `InvalidParams`), but any number —
negative or not — is accepted. -/
theorem dockerLogs_tail_amended (env : ExecEnv) (c : String) :
    (handle env "docker_logs" [("container", JsValue.str c)]
       = handle env "docker_logs" [("container", JsValue.str c), ("tail", JsValue.num 100)]
     ∧ handle env "docker_logs" [("container", JsValue.str c)]
       = (execAsync env ("docker logs --tail 100 " ++ c)).mapError (catchWrap "docker_logs"))
    ∧ ∀ v : JsValue, (∀ n, v ≠ JsValue.num n) → v ≠ JsValue.undef →
        ∃ m, handle env "docker_logs" [("container", JsValue.str c), ("tail", v)]
          = Except.error ⟨ErrorCode.InvalidParams, m⟩ := by
  have hcmd : "docker logs --tail " ++ toString (100 : Int) ++ " " ++ c
      = "docker logs --tail 100 " ++ c := by
    have h1 : "docker logs --tail " ++ toString (100 : Int) ++ " " = "docker logs --tail 100 " := rfl
    rw [← h1]
  refine ⟨⟨?_, ?_⟩, ?_⟩
  · simp [handle, tryBody, DockerLogsArgsSchema.parse, requiredString, optionalNumber,
          getKey, List.lookup, dockerLogs, jsOrNum, ok_bind, error_bind, Except.mapError, execAsync, catchWrap]
  · cases h : env ("docker logs --tail 100 " ++ c) with
    | ok out =>
      simp [handle, tryBody, DockerLogsArgsSchema.parse, requiredString, optionalNumber,
            getKey, List.lookup, dockerLogs, jsOrNum, ok_bind, error_bind, execAsync,
            hcmd, h, Except.mapError, catchWrap]
    | err m =>
      simp [handle, tryBody, DockerLogsArgsSchema.parse, requiredString, optionalNumber,
            getKey, List.lookup, dockerLogs, jsOrNum, ok_bind, error_bind, execAsync,
            hcmd, h, Except.mapError, catchWrap, Thrown.errText]
  · intro v hnum hundef
    cases v with
    | num n => exact absurd rfl (hnum n)
    | undef => exact absurd rfl hundef
    | str s =>
      exact ⟨"Invalid arguments for docker_logs: Expected number",
        by simp [handle, tryBody, DockerLogsArgsSchema.parse, requiredString, optionalNumber,
                 getKey, List.lookup, catchWrap, Except.mapError, ok_bind, error_bind]⟩
    | bool b =>
      exact ⟨"Invalid arguments for docker_logs: Expected number",
        by simp [handle, tryBody, DockerLogsArgsSchema.parse, requiredString, optionalNumber,
                 getKey, List.lookup, catchWrap, Except.mapError, ok_bind, error_bind]⟩
    | null =>
      exact ⟨"Invalid arguments for docker_logs: Expected number",
        by simp [handle, tryBody, DockerLogsArgsSchema.parse, requiredString, optionalNumber,
                 getKey, List.lookup, catchWrap, Except.mapError, ok_bind, error_bind]⟩

/-- C4 amended, witness: with `tail` omitted the dispatch echoes the
command `docker logs --tail 100 c1`, and a string-valued `tail` is
rejected as `InvalidParams`. -/
theorem dockerLogs_tail_amended_witness :
    handle echoEnv "docker_logs" [("container", JsValue.str "c1")]
      = handle echoEnv "docker_logs" [("container", JsValue.str "c1"), ("tail", JsValue.num 100)]
    ∧ ∃ m, handle echoEnv "docker_logs" [("container", JsValue.str "c1"), ("tail", JsValue.str "x")]
      = Except.error ⟨ErrorCode.InvalidParams, m⟩ :=
  ⟨(dockerLogs_tail_amended echoEnv "c1").1.1,
   (dockerLogs_tail_amended echoEnv "c1").2 (JsValue.str "x")
     (fun n h => by cases h) (fun h => by cases h)⟩

/-- C6: omitting `force` dispatches identically to `force = false`; the
command run is `docker rm <container>` (no force flag); a non-zero exit of
that command surfaces as `InternalError` (ExecutionFailure) wrapping the
runtime's error text; and the success payload is a confirmation message
containing the container identifier. -/
theorem dockerDelete_default_and_failure (env : ExecEnv) (c : String) :
    handle env "docker_delete" [("container", JsValue.str c)]
      = handle env "docker_delete" [("container", JsValue.str c), ("force", JsValue.bool false)]
    ∧ handle env "docker_delete" [("container", JsValue.str c)]
      = (match env ("docker rm " ++ c) with
         | ExecOutcome.ok _ => Except.ok ("Container " ++ c ++ " deleted successfully")
         | ExecOutcome.err m =>
             Except.error ⟨ErrorCode.InternalError, "Error executing docker_delete: " ++ m⟩)
    ∧ ∃ l r, "Container " ++ c ++ " deleted successfully" = l ++ c ++ r := by
  refine ⟨?_, ?_, "Container ", " deleted successfully", rfl⟩
  · simp [handle, tryBody, DockerDeleteArgsSchema.parse, requiredString, optionalBoolean,
          getKey, List.lookup, dockerDelete, jsOrBool, ok_bind, error_bind, Except.mapError, execAsync, catchWrap]
  · cases h : env ("docker rm " ++ c) with
    | ok out =>
      simp [handle, tryBody, DockerDeleteArgsSchema.parse, requiredString, optionalBoolean,
            getKey, List.lookup, dockerDelete, jsOrBool, execAsync, h, Except.mapError, ok_bind, error_bind]
    | err m =>
      simp [handle, tryBody, DockerDeleteArgsSchema.parse, requiredString, optionalBoolean,
            getKey, List.lookup, dockerDelete, jsOrBool, execAsync, h, Except.mapError, catchWrap, ok_bind, error_bind, Thrown.errText]

/-- C7: `docker_port` output handling — when the runtime prints nothing
the payload is exactly "No ports mapped" (via `stdout || 'No ports
mapped'`), any non-empty output is passed through unchanged, and a
non-zero exit surfaces as `InternalError`. -/
theorem dockerPort_no_ports_mapped (env : ExecEnv) (c : String) :
    handle env "docker_port" [("container", JsValue.str c)]
      = (match env ("docker port " ++ c) with
         | ExecOutcome.ok out => Except.ok (if out = "" then "No ports mapped" else out)
         | ExecOutcome.err m =>
             Except.error ⟨ErrorCode.InternalError, "Error executing docker_port: " ++ m⟩) := by
  cases h : env ("docker port " ++ c) with
  | ok out =>
    simp [handle, tryBody, DockerPortArgsSchema.parse, requiredString,
          getKey, List.lookup, dockerPort, execAsync, h, Except.mapError, ok_bind, error_bind]
  | err m =>
    simp [handle, tryBody, DockerPortArgsSchema.parse, requiredString,
          getKey, List.lookup, dockerPort, execAsync, h, Except.mapError, catchWrap, ok_bind, error_bind, Thrown.errText]

/-- C8: the advertised registry is a fixed pure list: it has exactly eight
descriptors, their names are pairwise distinct (exactly one descriptor per
operation name), and the per-descriptor schema summary (parameter names,
types, requiredness, defaults) coincides with the section-3 catalog of the
spec. -/
theorem listOperations_catalog :
    listOperations.length = 8
    ∧ (listOperations.map ToolDescriptor.tname).Nodup
    ∧ listOperations.map toolSummary = specCatalog :=
  ⟨rfl, by decide, rfl⟩

/-- C9: `tail = 0` is falsy in JavaScript, so `validatedArgs.tail || 100`
replaces it with the default: the dispatch equals the tail-omitted
dispatch and invokes `docker logs --tail 100 <container>`, not
`--tail 0`. -/
theorem dockerLogs_tail_zero_default (env : ExecEnv) (c : String) :
    handle env "docker_logs" [("container", JsValue.str c), ("tail", JsValue.num 0)]
      = handle env "docker_logs" [("container", JsValue.str c)]
    ∧ handle env "docker_logs" [("container", JsValue.str c), ("tail", JsValue.num 0)]
      = (execAsync env ("docker logs --tail 100 " ++ c)).mapError (catchWrap "docker_logs") := by
  have hcmd : "docker logs --tail " ++ toString (100 : Int) ++ " " ++ c
      = "docker logs --tail 100 " ++ c := by
    have h1 : "docker logs --tail " ++ toString (100 : Int) ++ " " = "docker logs --tail 100 " := rfl
    rw [← h1]
  constructor
  · simp [handle, tryBody, DockerLogsArgsSchema.parse, requiredString, optionalNumber,
          getKey, List.lookup, dockerLogs, jsOrNum, ok_bind, error_bind, Except.mapError, execAsync, catchWrap]
  · cases h : env ("docker logs --tail 100 " ++ c) with
    | ok out =>
      simp [handle, tryBody, DockerLogsArgsSchema.parse, requiredString, optionalNumber,
            getKey, List.lookup, dockerLogs, jsOrNum, ok_bind, error_bind, execAsync,
            hcmd, h, Except.mapError, catchWrap]
    | err m =>
      simp [handle, tryBody, DockerLogsArgsSchema.parse, requiredString, optionalNumber,
            getKey, List.lookup, dockerLogs, jsOrNum, ok_bind, error_bind, execAsync,
            hcmd, h, Except.mapError, catchWrap, Thrown.errText]

/-- C10: zod object schemas strip unknown keys, so inserting an entry
whose key the operation's schema does not recognize anywhere in the bag
never causes a validation failure and leaves the dispatch result
unchanged for every oracle. -/
theorem extra_keys_ignored (env : ExecEnv) (name : String) (l1 l2 : Bag)
    (k : String) (v : JsValue) (hk : k ∉ recognizedKeys name) :
    handle env name (l1 ++ (k, v) :: l2) = handle env name (l1 ++ l2) := by
  unfold handle
  congr 1
  unfold tryBody
  by_cases h1 : name = "docker_ps"
  · simp [h1]
  by_cases h2 : name = "docker_ps_all"
  · simp [h1, h2]
  by_cases h3 : name = "docker_port"
  · subst h3
    rw [show recognizedKeys "docker_port" = ["container"] from rfl] at hk
    simp only [List.mem_singleton] at hk
    simp [h1, h2, DockerPortArgsSchema.parse,
          requiredString_middle l1 l2 k "container" v (Ne.symm hk)]
  by_cases h4 : name = "docker_logs"
  · subst h4
    rw [show recognizedKeys "docker_logs" = ["container", "tail"] from rfl] at hk
    simp only [List.mem_cons, List.mem_singleton, not_or] at hk
    obtain ⟨hka, hkb⟩ := hk
    simp [h1, h2, h3, DockerLogsArgsSchema.parse,
          requiredString_middle l1 l2 k "container" v (Ne.symm hka),
          optionalNumber_middle l1 l2 k "tail" v (Ne.symm hkb.1)]
  by_cases h5 : name = "docker_inspect"
  · subst h5
    rw [show recognizedKeys "docker_inspect" = ["container"] from rfl] at hk
    simp only [List.mem_singleton] at hk
    simp [h1, h2, h3, h4, DockerInspectArgsSchema.parse,
          requiredString_middle l1 l2 k "container" v (Ne.symm hk)]
  by_cases h6 : name = "docker_stats"
  · subst h6
    rw [show recognizedKeys "docker_stats" = ["no_stream"] from rfl] at hk
    simp only [List.mem_singleton] at hk
    simp [h1, h2, h3, h4, h5, DockerStatsArgsSchema.parse,
          optionalBoolean_middle l1 l2 k "no_stream" v (Ne.symm hk)]
  by_cases h7 : name = "docker_images"
  · simp [h1, h2, h3, h4, h5, h6, h7]
  by_cases h8 : name = "docker_delete"
  · subst h8
    rw [show recognizedKeys "docker_delete" = ["container", "force"] from rfl] at hk
    simp only [List.mem_cons, List.mem_singleton, not_or] at hk
    obtain ⟨hka, hkb⟩ := hk
    simp [h1, h2, h3, h4, h5, h6, h7, DockerDeleteArgsSchema.parse,
          requiredString_middle l1 l2 k "container" v (Ne.symm hka),
          optionalBoolean_middle l1 l2 k "force" v (Ne.symm hkb.1)]
  · simp [h1, h2, h3, h4, h5, h6, h7, h8]

/-- C10 witness: an unrecognized `verbose` key in the `docker_logs` bag is
stripped and the dispatch result is unchanged. -/
theorem extra_keys_ignored_witness :
    handle echoEnv "docker_logs" ([] ++ ("verbose", JsValue.bool true) :: [("container", JsValue.str "c1")])
      = handle echoEnv "docker_logs" ([] ++ [("container", JsValue.str "c1")]) :=
  extra_keys_ignored echoEnv "docker_logs" [] [("container", JsValue.str "c1")]
    "verbose" (JsValue.bool true) (by decide)

end DockerMcp
namespace DockerMcp

/-! ## Character and digit lemmas for the JSON round trip -/

/-- Characters with different code points differ. -/
theorem char_ne_of_toNat (c d : Char) (h : c.toNat ≠ d.toNat) : c ≠ d :=
  fun he => h (congrArg Char.toNat he)

/-- A decimal digit character has code point between 48 and 57. -/
theorem isDigitChar_bounds {c : Char} (h : isDigitChar c = true) :
    48 ≤ c.toNat ∧ c.toNat ≤ 57 := by
  simpa [isDigitChar, Bool.and_eq_true, decide_eq_true_eq] using h

/-- A digit character is none of the JSON structural characters and is not
whitespace. -/
theorem digit_facts {c : Char} (h : isDigitChar c = true) :
    c ≠ 'n' ∧ c ≠ 't' ∧ c ≠ 'f' ∧ c ≠ '"' ∧ c ≠ '[' ∧ c ≠ '\x7b' ∧ c ≠ '-' ∧
    isJsonWs c = false ∧ c ≠ ']' ∧ c ≠ '\x7d' := by
  obtain ⟨h1, h2⟩ := isDigitChar_bounds h
  have hsp : c ≠ ' ' := char_ne_of_toNat c ' ' (by rw [show (' ').toNat = 32 from rfl]; omega)
  have htb : c ≠ '\t' := char_ne_of_toNat c '\t' (by rw [show ('\t').toNat = 9 from rfl]; omega)
  have hnl : c ≠ '\n' := char_ne_of_toNat c '\n' (by rw [show ('\n').toNat = 10 from rfl]; omega)
  have hcr : c ≠ '\r' := char_ne_of_toNat c '\r' (by rw [show ('\r').toNat = 13 from rfl]; omega)
  refine ⟨char_ne_of_toNat c 'n' (by rw [show ('n').toNat = 110 from rfl]; omega),
          char_ne_of_toNat c 't' (by rw [show ('t').toNat = 116 from rfl]; omega),
          char_ne_of_toNat c 'f' (by rw [show ('f').toNat = 102 from rfl]; omega),
          char_ne_of_toNat c '"' (by rw [show ('"').toNat = 34 from rfl]; omega),
          char_ne_of_toNat c '[' (by rw [show ('[').toNat = 91 from rfl]; omega),
          char_ne_of_toNat c '\x7b' (by rw [show ('\x7b').toNat = 123 from rfl]; omega),
          char_ne_of_toNat c '-' (by rw [show ('-').toNat = 45 from rfl]; omega),
          by simp [isJsonWs, hsp, htb, hnl, hcr],
          char_ne_of_toNat c ']' (by rw [show (']').toNat = 93 from rfl]; omega),
          char_ne_of_toNat c '\x7d' (by rw [show ('\x7d').toNat = 125 from rfl]; omega)⟩

/-- `hexDigitChar` and `digitVal` cancel on digits below 10. -/
theorem digitVal_hexDigitChar {n : Nat} (h : n < 10) :
    digitVal (hexDigitChar n) = n := by
  interval_cases n <;> decide

/-- `hexDigitChar` emits decimal digit characters below 10. -/
theorem isDigitChar_hexDigitChar {n : Nat} (h : n < 10) :
    isDigitChar (hexDigitChar n) = true := by
  interval_cases n <;> decide

/-- `hexDigitChar` and `hexVal` cancel below 16. -/
theorem hexVal_hexDigitChar {n : Nat} (h : n < 16) :
    hexVal (hexDigitChar n) = some n := by
  interval_cases n <;> decide

/-- Every character emitted by `natToDigitsAux` is a decimal digit. -/
theorem natToDigitsAux_digits :
    ∀ (fuel n : Nat), n < fuel → ∀ c ∈ natToDigitsAux fuel n, isDigitChar c = true := by
  intro fuel
  induction fuel with
  | zero => intro n hn; omega
  | succ f ih =>
    intro n hn c hc
    by_cases h10 : n < 10
    · simp [natToDigitsAux, h10] at hc
      subst hc
      exact isDigitChar_hexDigitChar h10
    · simp only [natToDigitsAux, if_neg h10, List.mem_append, List.mem_singleton] at hc
      rcases hc with hc | hc
      · exact ih (n / 10) (by omega) c hc
      · subst hc
        exact isDigitChar_hexDigitChar (Nat.mod_lt _ (by omega))

/-- `natToDigitsAux` is never empty when the fuel exceeds the value. -/
theorem natToDigitsAux_ne_nil :
    ∀ (fuel n : Nat), n < fuel → natToDigitsAux fuel n ≠ [] := by
  intro fuel
  induction fuel with
  | zero => intro n hn; omega
  | succ f ih =>
    intro n hn
    by_cases h10 : n < 10
    · simp [natToDigitsAux, h10]
    · simp [natToDigitsAux, h10]

/-- Appending one digit multiplies the accumulated value by ten. -/
theorem digitsToNat_append (l : List Char) (d : Char) :
    digitsToNat (l ++ [d]) = digitsToNat l * 10 + digitVal d := by
  simp [digitsToNat, List.foldl_append]

/-- Digit emission and digit-run evaluation cancel. -/
theorem digitsToNat_natToDigitsAux :
    ∀ (fuel n : Nat), n < fuel → digitsToNat (natToDigitsAux fuel n) = n := by
  intro fuel
  induction fuel with
  | zero => intro n hn; omega
  | succ f ih =>
    intro n hn
    by_cases h10 : n < 10
    · simp [natToDigitsAux, h10, digitsToNat, digitVal_hexDigitChar h10]
    · rw [natToDigitsAux, if_neg h10, digitsToNat_append,
          ih (n / 10) (by omega), digitVal_hexDigitChar (Nat.mod_lt _ (by omega))]
      omega

/-- `takeDigits` splits a digit run off exactly at a non-digit. -/
theorem takeDigits_append :
    ∀ (ds r : List Char), (∀ c ∈ ds, isDigitChar c = true) → restOk r →
      takeDigits (ds ++ r) = (ds, r) := by
  intro ds
  induction ds with
  | nil =>
    intro r _ hr
    cases r with
    | nil => rfl
    | cons c t => simp [takeDigits, show isDigitChar c = false from hr]
  | cons d ds ih =>
    intro r hds hr
    have hd : isDigitChar d = true := hds d (List.mem_cons_self d ds)
    simp [takeDigits, hd, ih r (fun c hc => hds c (List.mem_cons_of_mem d hc)) hr]

/-- Parsing the decimal representation of an integer recovers it. -/
theorem parseNumber_intToChars (n : Int) (rest : List Char) (hrest : restOk rest) :
    parseNumber (intToChars n ++ rest) = some (Json.num n, rest) := by
  by_cases hn : n < 0
  · have hlt : n.natAbs < n.natAbs + 1 := Nat.lt_succ_self _
    obtain ⟨d, ds, hds⟩ :=
      List.exists_cons_of_ne_nil (natToDigitsAux_ne_nil (n.natAbs + 1) n.natAbs hlt)
    rw [show intToChars n = '-' :: natToDigits n.natAbs from by simp [intToChars, hn]]
    rw [List.cons_append, parseNumber, if_pos rfl,
        takeDigits_append (natToDigits n.natAbs) rest
          (natToDigitsAux_digits (n.natAbs + 1) n.natAbs hlt) hrest]
    rw [show natToDigits n.natAbs = d :: ds from hds]
    have hval : digitsToNat (d :: ds) = n.natAbs := by
      rw [← hds]
      exact digitsToNat_natToDigitsAux (n.natAbs + 1) n.natAbs hlt
    simp only [hval]
    have : -((n.natAbs : Int)) = n := by omega
    rw [this]
  · have hlt : n.toNat < n.toNat + 1 := Nat.lt_succ_self _
    obtain ⟨d, ds, hds⟩ :=
      List.exists_cons_of_ne_nil (natToDigitsAux_ne_nil (n.toNat + 1) n.toNat hlt)
    have hdig : ∀ c ∈ natToDigits n.toNat, isDigitChar c = true :=
      natToDigitsAux_digits (n.toNat + 1) n.toNat hlt
    have hd : isDigitChar d = true := by
      apply hdig
      rw [show natToDigits n.toNat = d :: ds from hds]
      exact List.mem_cons_self d ds
    rw [show intToChars n = natToDigits n.toNat from by simp [intToChars, hn]]
    rw [show natToDigits n.toNat = d :: ds from hds] at *
    rw [List.cons_append, parseNumber, if_neg (digit_facts hd).2.2.2.2.2.2.1,
        show d :: (ds ++ rest) = (d :: ds) ++ rest from rfl,
        takeDigits_append (d :: ds) rest hdig hrest]
    have hval : digitsToNat (d :: ds) = n.toNat := by
      rw [← hds]
      exact digitsToNat_natToDigitsAux (n.toNat + 1) n.toNat hlt
    simp only [hval]
    have : ((n.toNat : Int)) = n := by omega
    rw [this]

end DockerMcp
namespace DockerMcp

/-! ## Whitespace and string-literal lemmas -/

/-- Leading whitespace is skipped through an all-whitespace prefix. -/
theorem skipWs_append_allWs :
    ∀ (p l : List Char), (∀ c ∈ p, isJsonWs c = true) → skipWs (p ++ l) = skipWs l := by
  intro p
  induction p with
  | nil => intro l _; rfl
  | cons c t ih =>
    intro l hp
    simp only [List.cons_append, skipWs, hp c (List.mem_cons_self c t), if_true]
    exact ih l (fun d hd => hp d (List.mem_cons_of_mem c hd))

/-- `skipWs` stops at the first non-whitespace character. -/
theorem skipWs_not_ws (c : Char) (l : List Char) (h : isJsonWs c = false) :
    skipWs (c :: l) = c :: l := by
  simp [skipWs, h]

/-- Indentation consists of whitespace only. -/
theorem allWs_indentChars (lvl : Nat) : ∀ c ∈ indentChars lvl, isJsonWs c = true := by
  intro c hc
  rw [indentChars] at hc
  rw [List.eq_of_mem_replicate hc]
  decide

/-- Escaping a character never produces the empty string. -/
theorem escapeChar_length_pos (c : Char) : 1 ≤ (escapeChar c).length := by
  unfold escapeChar
  split_ifs <;> simp

/-- Escaping can only lengthen a string. -/
theorem le_escapeList_length : ∀ l : List Char, l.length ≤ (escapeList l).length := by
  intro l
  induction l with
  | nil => simp [escapeList]
  | cons c t ih =>
    have := escapeChar_length_pos c
    simp only [escapeList, List.length_append, List.length_cons]
    omega

/-- Unescaping undoes `JSON.stringify` escaping: parsing the escaped body
followed by a closing quote recovers the original characters. -/
theorem parseStringBody_roundtrip :
    ∀ (l : List Char) (fuel : Nat) (rest : List Char), l.length < fuel →
      parseStringBody fuel (escapeList l ++ '"' :: rest) = some (l, rest) := by
  intro l
  induction l with
  | nil =>
    intro fuel rest hf
    cases fuel with
    | zero => omega
    | succ f => simp [escapeList, parseStringBody]
  | cons c l ih =>
    intro fuel rest hf
    cases fuel with
    | zero => omega
    | succ f =>
      have ihf := ih f rest (by simp only [List.length_cons] at hf; omega)
      rw [show escapeList (c :: l) = escapeChar c ++ escapeList l from rfl]
      unfold escapeChar
      split_ifs with h1 h2 h3 h4 h5 h6 h7 h8
      · subst h1; simp [parseStringBody, unescapeChar, mapConsChar, ihf]
      · subst h2; simp [parseStringBody, unescapeChar, mapConsChar, ihf]
      · subst h3; simp [parseStringBody, unescapeChar, mapConsChar, ihf]
      · subst h4; simp [parseStringBody, unescapeChar, mapConsChar, ihf]
      · subst h5; simp [parseStringBody, unescapeChar, mapConsChar, ihf]
      · subst h6; simp [parseStringBody, unescapeChar, mapConsChar, ihf]
      · subst h7; simp [parseStringBody, unescapeChar, mapConsChar, ihf]
      · have hdiv : c.toNat / 16 < 16 := by omega
        have hmod : c.toNat % 16 < 16 := by omega
        have hval : c.toNat / 16 * 16 + c.toNat % 16 = c.toNat := by
          omega
        simp [parseStringBody, hexVal_hexDigitChar hdiv, hexVal_hexDigitChar hmod,
              mapConsChar, ihf, hval, Char.ofNat_toNat,
              show hexVal '0' = some 0 from rfl]
      · simp [parseStringBody, h1, h2, h8, mapConsChar, ihf]

end DockerMcp
namespace DockerMcp

/-! ## Shape and dispatch lemmas for the JSON parser -/

/-- Every JSON value has positive weight. -/
theorem jweight_pos (j : Json) : 1 ≤ jweight j := by
  cases j <;> simp [jweight]

/-- A non-empty element list has positive weight. -/
theorem jlweight_pos (xs : List Json) (h : xs ≠ []) : 1 ≤ jlweight xs := by
  cases xs with
  | nil => exact absurd rfl h
  | cons x t =>
    have := jweight_pos x
    simp only [jlweight]
    omega

/-- A non-empty field list has positive weight. -/
theorem jfweight_pos (fs : List (String × Json)) (h : fs ≠ []) : 1 ≤ jfweight fs := by
  cases fs with
  | nil => exact absurd rfl h
  | cons f t =>
    obtain ⟨k, v⟩ := f
    have := jweight_pos v
    simp only [jfweight]
    omega

/-- The decimal representation of an integer starts with a minus sign or a
digit. -/
theorem intToChars_head (n : Int) :
    ∃ d tl, intToChars n = d :: tl ∧ (d = '-' ∨ isDigitChar d = true) := by
  by_cases hn : n < 0
  · exact ⟨'-', natToDigits n.natAbs, by simp [intToChars, hn], Or.inl rfl⟩
  · obtain ⟨d, ds, hds⟩ :=
      List.exists_cons_of_ne_nil (natToDigitsAux_ne_nil (n.toNat + 1) n.toNat (Nat.lt_succ_self _))
    refine ⟨d, ds, by simp [intToChars, hn, natToDigits, hds], Or.inr ?_⟩
    apply natToDigitsAux_digits (n.toNat + 1) n.toNat (Nat.lt_succ_self _)
    rw [show natToDigitsAux (n.toNat + 1) n.toNat = d :: ds from hds]
    exact List.mem_cons_self d ds

/-- The serialization of any JSON value starts with a non-whitespace
character that closes no bracket. -/
theorem stringify_head (j : Json) (lvl : Nat) :
    ∃ d tl, stringifyChars lvl j = d :: tl ∧ isJsonWs d = false ∧ d ≠ ']' ∧ d ≠ '\x7d' := by
  cases j with
  | null => exact ⟨'n', _, rfl, by decide⟩
  | bool b =>
    cases b with
    | true => exact ⟨'t', _, rfl, by decide⟩
    | false => exact ⟨'f', _, rfl, by decide⟩
  | num n =>
    obtain ⟨d, tl, hdt, hd⟩ := intToChars_head n
    rcases hd with rfl | hd
    · exact ⟨'-', tl, hdt, by decide⟩
    · obtain ⟨-, -, -, -, -, -, -, hws, hrb, hcb⟩ := digit_facts hd
      exact ⟨d, tl, hdt, hws, hrb, hcb⟩
  | str s =>
    exact ⟨'"', escapeList s.data ++ ['"'], rfl, by decide⟩
  | arr xs =>
    cases xs with
    | nil => exact ⟨'[', _, rfl, by decide⟩
    | cons x t => exact ⟨'[', _, rfl, by decide⟩
  | obj fs =>
    cases fs with
    | nil => exact ⟨'\x7b', _, rfl, by decide⟩
    | cons f t => exact ⟨'\x7b', _, rfl, by decide⟩

/-- A non-empty element list serializes to its indentation, the first
element, and a tail. -/
theorem itemsChars_shape (lvl : Nat) (x : Json) (xs : List Json) :
    ∃ T, itemsChars lvl (x :: xs) = indentChars lvl ++ (stringifyChars lvl x ++ T) := by
  cases xs with
  | nil => exact ⟨[], by simp [itemsChars]⟩
  | cons y t => exact ⟨',' :: '\n' :: itemsChars lvl (y :: t), by simp [itemsChars]⟩

/-- A non-empty field list serializes to its indentation, an opening
quote, and a tail. -/
theorem fieldsChars_shape (lvl : Nat) (k : String) (v : Json) (fs : List (String × Json)) :
    ∃ T, fieldsChars lvl ((k, v) :: fs) = indentChars lvl ++ ('"' :: T) := by
  cases fs with
  | nil =>
    exact ⟨escapeList k.data ++ '"' :: (':' :: ' ' :: stringifyChars lvl v),
      by simp [fieldsChars, quoteChars]⟩
  | cons g t =>
    exact ⟨escapeList k.data ++ '"' :: (':' :: ' ' :: stringifyChars lvl v) ++
             (',' :: '\n' :: fieldsChars lvl (g :: t)),
      by simp [fieldsChars, quoteChars]⟩

/-- `parseValue` ignores an all-whitespace prefix. -/
theorem parseValue_ws_invariant (F : Nat) (pre l : List Char)
    (hpre : ∀ c ∈ pre, isJsonWs c = true) :
    parseValue (F + 1) (pre ++ l) = parseValue (F + 1) l := by
  simp only [parseValue]
  rw [skipWs_append_allWs pre l hpre]

/-- On a minus sign or a digit, `parseValue` delegates to `parseNumber`. -/
theorem parseValue_num_head (F : Nat) (c : Char) (tl : List Char)
    (h : c = '-' ∨ isDigitChar c = true) :
    parseValue (F + 1) (c :: tl) = parseNumber (c :: tl) := by
  rcases h with rfl | hd
  · simp [parseValue, skipWs_not_ws '-' tl (by decide)]
  · obtain ⟨f1, f2, f3, f4, f5, f6, -, fws, -, -⟩ := digit_facts hd
    simp [parseValue, skipWs_not_ws c tl fws, f1, f2, f3, f4, f5, f6]

end DockerMcp
namespace DockerMcp

/-- Whitespace at the head is skipped. -/
theorem skipWs_ws_cons (c : Char) (l : List Char) (h : isJsonWs c = true) :
    skipWs (c :: l) = skipWs l := by
  simp [skipWs, h]

/-- Structure eta for strings. -/
theorem String_mk_data (s : String) : String.mk s.data = s := rfl

/-- The fuelled parser recovers every serialized value: mutual round-trip
statement for values, array elements and object fields, by strong
induction on the fuel. -/
theorem rt_aux : ∀ fuel : Nat,
    (∀ (j : Json) (lvl : Nat) (pre rest : List Char),
      (∀ c ∈ pre, isJsonWs c = true) → jweight j ≤ fuel → restOk rest →
      parseValue fuel (pre ++ (stringifyChars lvl j ++ rest)) = some (j, rest))
    ∧ (∀ (xs : List Json) (lvl : Nat) (pre w rest : List Char),
      xs ≠ [] → (∀ c ∈ pre, isJsonWs c = true) → (∀ c ∈ w, isJsonWs c = true) →
      jlweight xs ≤ fuel →
      parseItems fuel (pre ++ (itemsChars lvl xs ++ '\n' :: (w ++ ']' :: rest)))
        = some (xs, rest))
    ∧ (∀ (fs : List (String × Json)) (lvl : Nat) (pre w rest : List Char),
      fs ≠ [] → (∀ c ∈ pre, isJsonWs c = true) → (∀ c ∈ w, isJsonWs c = true) →
      jfweight fs ≤ fuel →
      parseFields fuel (pre ++ (fieldsChars lvl fs ++ '\n' :: (w ++ '\x7d' :: rest)))
        = some (fs, rest)) := by
  intro fuel
  induction fuel using Nat.strongRecOn with
  | ind fuel IH =>
  refine ⟨?_, ?_, ?_⟩
  · -- values
    intro j lvl pre rest hpre hw hrest
    cases fuel with
    | zero => exact absurd hw (by have := jweight_pos j; omega)
    | succ F =>
      rw [parseValue_ws_invariant F pre _ hpre]
      cases j with
      | null =>
        simp only [stringifyChars, List.cons_append, List.nil_append]
        simp [parseValue, skipWs_not_ws 'n' _ (by decide), stripPre]
      | bool b =>
        cases b with
        | true =>
          simp only [stringifyChars, List.cons_append, List.nil_append]
          simp [parseValue, skipWs_not_ws 't' _ (by decide), stripPre]
        | false =>
          simp only [stringifyChars, List.cons_append, List.nil_append]
          simp [parseValue, skipWs_not_ws 'f' _ (by decide), stripPre]
      | num n =>
        obtain ⟨d, tl, hdt, hd⟩ := intToChars_head n
        rw [show stringifyChars lvl (Json.num n) = intToChars n from rfl, hdt, List.cons_append,
            parseValue_num_head F d (tl ++ rest) hd, ← List.cons_append, ← hdt]
        exact parseNumber_intToChars n rest hrest
      | str s =>
        rw [show stringifyChars lvl (Json.str s) = '"' :: (escapeList s.data ++ ['"']) from rfl]
        simp only [List.cons_append, List.append_assoc, List.nil_append]
        have hlen : s.data.length < (escapeList s.data ++ '"' :: rest).length + 1 := by
          have := le_escapeList_length s.data
          simp only [List.length_append, List.length_cons]
          omega
        simp only [parseValue, skipWs_not_ws '"' _ (by decide),
                   show (('"' : Char) = 'n') = False from by simp,
                   show (('"' : Char) = 't') = False from by simp,
                   show (('"' : Char) = 'f') = False from by simp,
                   show (('"' : Char) = '"') = True from by simp,
                   if_false, if_true, ite_false, ite_true,
                   parseStringBody_roundtrip s.data
                     ((escapeList s.data ++ '"' :: rest).length + 1) rest hlen,
                   String_mk_data]
      | arr xs =>
        cases xs with
        | nil =>
          simp only [stringifyChars, List.cons_append, List.nil_append]
          simp [parseValue, skipWs_not_ws '[' _ (by decide), skipWs_not_ws ']' _ (by decide)]
        | cons x t =>
          simp only [stringifyChars, List.cons_append, List.append_assoc, List.nil_append]
          obtain ⟨T, hT⟩ := itemsChars_shape (lvl + 1) x t
          obtain ⟨d, tl2, hdt, hdws, hdrb, hdcb⟩ := stringify_head x (lvl + 1)
          have hskip : skipWs ('\n' :: (itemsChars (lvl + 1) (x :: t) ++
              '\n' :: (indentChars lvl ++ ']' :: rest)))
              = d :: (tl2 ++ (T ++ '\n' :: (indentChars lvl ++ ']' :: rest))) := by
            rw [hT, skipWs_ws_cons '\n' _ (by decide)]
            simp only [List.append_assoc]
            rw [skipWs_append_allWs _ _ (allWs_indentChars (lvl + 1)), hdt, List.cons_append,
                skipWs_not_ws d _ hdws]
          have hitems := (IH F (Nat.lt_succ_self F)).2.1 (x :: t) (lvl + 1) ['\n']
            (indentChars lvl) rest (by simp) (by decide) (allWs_indentChars lvl)
            (by simp only [jweight] at hw; omega)
          simp only [List.cons_append, List.nil_append] at hitems
          simp only [parseValue, skipWs_not_ws '[' _ (by decide),
                     show (('[' : Char) = 'n') = False from by simp,
                     show (('[' : Char) = 't') = False from by simp,
                     show (('[' : Char) = 'f') = False from by simp,
                     show (('[' : Char) = '"') = False from by simp,
                     show (('[' : Char) = '[') = True from by simp,
                     if_false, if_true, ite_false, ite_true]
          rw [hskip]
          split
          · rename_i r1 heq
            injection heq with heq1 heq2
            exact absurd heq1 hdrb
          · simp only [hitems]
      | obj fs =>
        cases fs with
        | nil =>
          simp only [stringifyChars, List.cons_append, List.nil_append]
          simp [parseValue, skipWs_not_ws '\x7b' _ (by decide),
                skipWs_not_ws '\x7d' _ (by decide)]
        | cons f t =>
          obtain ⟨k, v⟩ := f
          simp only [stringifyChars, List.cons_append, List.append_assoc, List.nil_append]
          obtain ⟨T, hT⟩ := fieldsChars_shape (lvl + 1) k v t
          have hskip : skipWs ('\n' :: (fieldsChars (lvl + 1) ((k, v) :: t) ++
              '\n' :: (indentChars lvl ++ '\x7d' :: rest)))
              = '"' :: (T ++ ('\n' :: (indentChars lvl ++ '\x7d' :: rest))) := by
            rw [hT, skipWs_ws_cons '\n' _ (by decide)]
            simp only [List.append_assoc, List.cons_append]
            rw [skipWs_append_allWs _ _ (allWs_indentChars (lvl + 1)),
                skipWs_not_ws '"' _ (by decide)]
          have hfields := (IH F (Nat.lt_succ_self F)).2.2 ((k, v) :: t) (lvl + 1) ['\n']
            (indentChars lvl) rest (by simp) (by decide) (allWs_indentChars lvl)
            (by simp only [jweight] at hw; omega)
          simp only [List.cons_append, List.nil_append] at hfields
          simp only [parseValue, skipWs_not_ws '\x7b' _ (by decide),
                     show (('\x7b' : Char) = 'n') = False from by simp,
                     show (('\x7b' : Char) = 't') = False from by simp,
                     show (('\x7b' : Char) = 'f') = False from by simp,
                     show (('\x7b' : Char) = '"') = False from by simp,
                     show (('\x7b' : Char) = '[') = False from by simp,
                     show (('\x7b' : Char) = '\x7b') = True from by simp,
                     if_false, if_true, ite_false, ite_true]
          rw [hskip]
          split
          · rename_i r1 heq
            injection heq with heq1 heq2
            exact absurd heq1 (by decide)
          · simp only [hfields]
  · -- array elements
    intro xs lvl pre w rest hne hpre hw hfuel
    cases xs with
    | nil => exact absurd rfl hne
    | cons x t =>
      cases fuel with
      | zero =>
        have h1 := jweight_pos x
        simp only [jlweight] at hfuel
        omega
      | succ F =>
        have hIH := IH F (Nat.lt_succ_self F)
        cases t with
        | nil =>
          simp only [itemsChars, List.append_assoc]
          have hval := hIH.1 x lvl (pre ++ indentChars lvl) ('\n' :: (w ++ ']' :: rest))
            (by intro c hc
                rcases List.mem_append.mp hc with hc | hc
                exacts [hpre c hc, allWs_indentChars lvl c hc])
            (by simp only [jlweight] at hfuel; omega)
            (by simp only [restOk]; decide)
          simp only [List.append_assoc] at hval
          simp only [parseItems, hval, skipWs_ws_cons '\n' _ (by decide),
                     skipWs_append_allWs w _ hw, skipWs_not_ws ']' _ (by decide)]
        | cons y t2 =>
          simp only [itemsChars, List.append_assoc, List.cons_append]
          have hval := hIH.1 x lvl (pre ++ indentChars lvl)
            (',' :: '\n' :: (itemsChars lvl (y :: t2) ++ '\n' :: (w ++ ']' :: rest)))
            (by intro c hc
                rcases List.mem_append.mp hc with hc | hc
                exacts [hpre c hc, allWs_indentChars lvl c hc])
            (by simp only [jlweight] at hfuel
                have := jlweight_pos (y :: t2) (by simp)
                omega)
            (by simp only [restOk]; decide)
          simp only [List.append_assoc] at hval
          have hrec := hIH.2.1 (y :: t2) lvl ['\n'] w rest (by simp) (by decide) hw
            (by simp only [jlweight] at hfuel ⊢
                have := jweight_pos x
                omega)
          simp only [List.cons_append, List.nil_append] at hrec
          simp only [parseItems, hval, skipWs_not_ws ',' _ (by decide), hrec]
  · -- object fields
    intro fs lvl pre w rest hne hpre hw hfuel
    cases fs with
    | nil => exact absurd rfl hne
    | cons f t =>
      obtain ⟨k, v⟩ := f
      cases fuel with
      | zero =>
        have h1 := jweight_pos v
        simp only [jfweight] at hfuel
        omega
      | succ F =>
        have hIH := IH F (Nat.lt_succ_self F)
        cases t with
        | nil =>
          simp only [fieldsChars, quoteChars, List.append_assoc, List.cons_append,
                     List.nil_append]
          have hklen : k.data.length <
              (escapeList k.data ++
                '"' :: (':' :: (' ' :: (stringifyChars lvl v ++
                  ('\n' :: (w ++ ('\x7d' :: rest))))))).length + 1 := by
            have := le_escapeList_length k.data
            simp only [List.length_append, List.length_cons]
            omega
          have hval := hIH.1 v lvl [' '] ('\n' :: (w ++ '\x7d' :: rest)) (by decide)
            (by simp only [jfweight] at hfuel; omega)
            (by simp only [restOk]; decide)
          simp only [List.cons_append, List.nil_append] at hval
          simp only [parseFields, skipWs_append_allWs pre _ hpre,
                     skipWs_append_allWs _ _ (allWs_indentChars lvl),
                     skipWs_not_ws '"' _ (by decide),
                     parseStringBody_roundtrip k.data
                       ((escapeList k.data ++
                         '"' :: (':' :: (' ' :: (stringifyChars lvl v ++
                           ('\n' :: (w ++ ('\x7d' :: rest))))))).length + 1)
                       (':' :: (' ' :: (stringifyChars lvl v ++
                         ('\n' :: (w ++ ('\x7d' :: rest)))))) hklen,
                     skipWs_not_ws ':' _ (by decide), hval,
                     skipWs_ws_cons '\n' _ (by decide), skipWs_append_allWs w _ hw,
                     skipWs_not_ws '\x7d' _ (by decide), String_mk_data]
        | cons g t2 =>
          simp only [fieldsChars, quoteChars, List.append_assoc, List.cons_append,
                     List.nil_append]
          have hklen : k.data.length <
              (escapeList k.data ++
                '"' :: (':' :: (' ' :: (stringifyChars lvl v ++
                  (',' :: ('\n' :: (fieldsChars lvl (g :: t2) ++
                    ('\n' :: (w ++ ('\x7d' :: rest)))))))))).length + 1 := by
            have := le_escapeList_length k.data
            simp only [List.length_append, List.length_cons]
            omega
          have hval := hIH.1 v lvl [' ']
            (',' :: ('\n' :: (fieldsChars lvl (g :: t2) ++ ('\n' :: (w ++ ('\x7d' :: rest))))))
            (by decide)
            (by simp only [jfweight] at hfuel
                have := jfweight_pos (g :: t2) (by simp)
                omega)
            (by simp only [restOk]; decide)
          simp only [List.cons_append, List.nil_append] at hval
          have hrec := hIH.2.2 (g :: t2) lvl ['\n'] w rest (by simp) (by decide) hw
            (by simp only [jfweight] at hfuel ⊢
                have := jweight_pos v
                omega)
          simp only [List.cons_append, List.nil_append] at hrec
          simp only [parseFields, skipWs_append_allWs pre _ hpre,
                     skipWs_append_allWs _ _ (allWs_indentChars lvl),
                     skipWs_not_ws '"' _ (by decide),
                     parseStringBody_roundtrip k.data
                       ((escapeList k.data ++
                         '"' :: (':' :: (' ' :: (stringifyChars lvl v ++
                           (',' :: ('\n' :: (fieldsChars lvl (g :: t2) ++
                             ('\n' :: (w ++ ('\x7d' :: rest)))))))))).length + 1)
                       (':' :: (' ' :: (stringifyChars lvl v ++
                         (',' :: ('\n' :: (fieldsChars lvl (g :: t2) ++
                           ('\n' :: (w ++ ('\x7d' :: rest)))))))))
                       hklen,
                     skipWs_not_ws ':' _ (by decide), hval,
                     skipWs_not_ws ',' _ (by decide), hrec, String_mk_data]

end DockerMcp
namespace DockerMcp

/-- The serialization is at least as long as the weight of the value:
mutual statement by strong induction on a weight bound. -/
theorem wlen_aux : ∀ B : Nat,
    (∀ j : Json, jweight j ≤ B → ∀ lvl, jweight j ≤ (stringifyChars lvl j).length)
    ∧ (∀ xs : List Json, xs ≠ [] → jlweight xs ≤ B → ∀ lvl, 1 ≤ lvl →
        jlweight xs ≤ (itemsChars lvl xs).length)
    ∧ (∀ fs : List (String × Json), fs ≠ [] → jfweight fs ≤ B → ∀ lvl, 1 ≤ lvl →
        jfweight fs ≤ (fieldsChars lvl fs).length) := by
  intro B
  induction B using Nat.strongRecOn with
  | ind B IH =>
  refine ⟨?_, ?_, ?_⟩
  · intro j hw lvl
    cases j with
    | null => simp [jweight, stringifyChars]
    | bool b => cases b <;> simp [jweight, stringifyChars]
    | num n =>
      obtain ⟨d, tl, hdt, -⟩ := intToChars_head n
      simp [jweight, stringifyChars, hdt]
    | str s => simp [jweight, stringifyChars, quoteChars]
    | arr xs =>
      cases xs with
      | nil => simp [jweight, jlweight, stringifyChars]
      | cons x t =>
        have hB : 1 ≤ B := by
          have := jlweight_pos (x :: t) (by simp)
          simp only [jweight] at hw
          omega
        have hIH := (IH (B - 1) (by omega)).2.1 (x :: t) (by simp)
          (by simp only [jweight] at hw; omega) (lvl + 1) (by omega)
        simp only [jweight, stringifyChars, List.length_cons, List.length_append,
                   indentChars, List.length_replicate] at hw hIH ⊢
        omega
    | obj fs =>
      cases fs with
      | nil => simp [jweight, jfweight, stringifyChars]
      | cons f t =>
        obtain ⟨k, v⟩ := f
        have hB : 1 ≤ B := by
          have := jfweight_pos ((k, v) :: t) (by simp)
          simp only [jweight] at hw
          omega
        have hIH := (IH (B - 1) (by omega)).2.2 ((k, v) :: t) (by simp)
          (by simp only [jweight] at hw; omega) (lvl + 1) (by omega)
        simp only [jweight, stringifyChars, List.length_cons, List.length_append,
                   indentChars, List.length_replicate] at hw hIH ⊢
        omega
  · intro xs hne hwl lvl hlvl
    cases xs with
    | nil => exact absurd rfl hne
    | cons x t =>
      have hB : 1 ≤ B := by
        have := jweight_pos x
        simp only [jlweight] at hwl
        omega
      cases t with
      | nil =>
        have hIH := (IH (B - 1) (by omega)).1 x
          (by simp only [jlweight] at hwl; omega) lvl
        simp only [jlweight, itemsChars, List.length_append, indentChars,
                   List.length_replicate] at hwl hIH ⊢
        omega
      | cons y t2 =>
        have hIHx := (IH (B - 1) (by omega)).1 x
          (by simp only [jlweight] at hwl; omega) lvl
        have hIHt := (IH (B - 1) (by omega)).2.1 (y :: t2) (by simp)
          (by simp only [jlweight] at hwl ⊢
              have := jweight_pos x
              omega) lvl hlvl
        simp only [jlweight, itemsChars, List.length_append, List.length_cons, indentChars,
                   List.length_replicate] at hwl hIHx hIHt ⊢
        omega
  · intro fs hne hwf lvl hlvl
    cases fs with
    | nil => exact absurd rfl hne
    | cons f t =>
      obtain ⟨k, v⟩ := f
      have hB : 1 ≤ B := by
        have := jweight_pos v
        simp only [jfweight] at hwf
        omega
      cases t with
      | nil =>
        have hIH := (IH (B - 1) (by omega)).1 v
          (by simp only [jfweight] at hwf; omega) lvl
        simp only [jfweight, fieldsChars, quoteChars, List.length_append, List.length_cons,
                   indentChars, List.length_replicate] at hwf hIH ⊢
        omega
      | cons g t2 =>
        have hIHv := (IH (B - 1) (by omega)).1 v
          (by simp only [jfweight] at hwf; omega) lvl
        have hIHt := (IH (B - 1) (by omega)).2.2 (g :: t2) (by simp)
          (by simp only [jfweight] at hwf ⊢
              have := jweight_pos v
              omega) lvl hlvl
        simp only [jfweight, fieldsChars, quoteChars, List.length_append, List.length_cons,
                   indentChars, List.length_replicate] at hwf hIHv hIHt ⊢
        omega

/-- Round trip of the `docker_inspect` JSON pipeline: re-parsing the
2-space-indented serialization of any JSON value recovers that value. -/
theorem Json.parse_stringify (j : Json) : Json.parse (Json.stringify j) = some j := by
  unfold Json.parse Json.stringify
  rw [show (String.mk (stringifyChars 0 j)).data = stringifyChars 0 j from rfl]
  have hw : jweight j ≤ (stringifyChars 0 j).length + 1 := by
    have := (wlen_aux (jweight j)).1 j (le_refl _) 0
    omega
  have h := (rt_aux ((stringifyChars 0 j).length + 1)).1 j 0 [] []
    (by simp) hw (by simp [restOk])
  simp only [List.nil_append, List.append_nil] at h
  rw [h]
  rfl

end DockerMcp
namespace DockerMcp

/-- C5: given that the runtime produced output `s` for `docker inspect`,
the dispatch of `docker_inspect` succeeds exactly when `s` is valid JSON
(in the integer-number JSON model): on invalid output it fails with the
`InternalError` (ExecutionFailure) category wrapping the `SyntaxError`,
never a silent empty result; on valid output it returns the parsed value
re-serialized by `JSON.stringify(·, null, 2)`, and that returned text
parses back to exactly the JSON structure the runtime emitted. -/
theorem dockerInspect_json_roundtrip (env : ExecEnv) (c s : String)
    (hexec : env ("docker inspect " ++ c) = ExecOutcome.ok s) :
    (Json.parse s = none →
       handle env "docker_inspect" [("container", JsValue.str c)]
         = Except.error ⟨ErrorCode.InternalError,
             "Error executing docker_inspect: Unexpected token in JSON"⟩)
    ∧ (∀ j, Json.parse s = some j →
       handle env "docker_inspect" [("container", JsValue.str c)]
         = Except.ok (Json.stringify j)
       ∧ Json.parse (Json.stringify j) = some j) := by
  constructor
  · intro hparse
    simp [handle, tryBody, DockerInspectArgsSchema.parse, requiredString, getKey, List.lookup,
          dockerInspect, execAsync, hexec, hparse, ok_bind, error_bind, Except.mapError,
          catchWrap, Thrown.errText]
  · intro j hparse
    refine ⟨?_, Json.parse_stringify j⟩
    simp [handle, tryBody, DockerInspectArgsSchema.parse, requiredString, getKey, List.lookup,
          dockerInspect, execAsync, hexec, hparse, ok_bind, error_bind, Except.mapError]

/-- C5 witness: inspecting a container whose runtime output is the JSON
object with one numeric field returns its 2-space re-serialization, which
parses back to the same structure. -/
theorem dockerInspect_json_roundtrip_witness :
    handle (fun _ => ExecOutcome.ok "\x7b\"Id\": 7\x7d") "docker_inspect"
        [("container", JsValue.str "c1")]
      = Except.ok (Json.stringify (Json.obj [("Id", Json.num 7)]))
    ∧ Json.parse (Json.stringify (Json.obj [("Id", Json.num 7)]))
      = some (Json.obj [("Id", Json.num 7)]) :=
  (dockerInspect_json_roundtrip (fun _ => ExecOutcome.ok "\x7b\"Id\": 7\x7d") "c1"
      "\x7b\"Id\": 7\x7d" rfl).2 (Json.obj [("Id", Json.num 7)]) (by rfl)

end DockerMcp
